import Mathlib

/-
Verification of the natural-language specification of
python/paddle/fluid/contrib/slim/prune/auto_prune_strategy.py
(class AutoPruneStrategy) against a shallow embedding of its code.

Graphs are modelled as their per-parameter shape assignment, the scope as a
per-parameter tensor assignment.  FLOPs and parameter counts are arbitrary
functions of the graph state, quantified in the theorems.  The pruning
transform (PruneStrategy._prune_parameters), the structural mirror
(_prune_graph), the controller and _get_prune_ratios live outside src/ and
are modelled from the spec where marked.
-/

namespace AutoPruneSlim

abbrev PName := String
abbrev Shape := List Nat
abbrev Tensor := List Int
abbrev Graph := PName → Shape
abbrev Scope := PName → Tensor

/-- Token decoding from the source line token * 0.01 (method _tokens_to_ratios). -/
def tokenToRatio (t : ℤ) : ℚ := t * (1 / 100)

/-- Ratio encoding from the source line int(ratio / 0.01) (method
_ratios_to_tokens); Python int() truncates toward zero, which is the floor
for nonnegative arguments and the negated floor of the negation otherwise. -/
def ratioToToken (r : ℚ) : ℤ := if 0 ≤ r then ⌊r / (1 / 100)⌋ else -⌊-r / (1 / 100)⌋

/-- Embedding of _ratios_to_tokens. -/
def ratiosToTokens (rs : List ℚ) : List ℤ := rs.map ratioToToken

/-- Embedding of _tokens_to_ratios. -/
def tokensToRatios (ts : List ℤ) : List ℚ := ts.map tokenToRatio

/-- Result of one call to the external pruning transform: the mutated graph
shapes, the mutated scope tensors, and the two ledgers it filled in
(param_shape_backup and param_backup in the source). -/
structure PruneResult where
  graph : Graph
  scope : Scope
  shapeBackup : List (PName × Shape)
  tensorBackup : List (PName × Tensor)

/-- The external pruning transform PruneStrategy._prune_parameters, kept
abstract: arguments are the graph, the scope, the selected parameter names,
the ratio vector and the only_graph flag. -/
structure Pruner where
  prune : Graph → Scope → List PName → List ℚ → Bool → PruneResult

/-- Embedding of the restore loops of the source (for param in backup.keys():
set_shape / tensor set): fold the ledger entries over the current map. -/
def restoreMap {α : Type} (cur : PName → α) (bk : List (PName × α)) : PName → α :=
  bk.foldl (fun f pr => fun q => if q = pr.1 then pr.2 else f q) cur

/-- Modelled from the spec: PruneStrategy._prune_parameters is not under src/;
spec section 4.5 requires the ledger to be exhaustive (every parameter the
transform mutates appears in the ledger, recorded with its pre-trial value,
before the mutation).  The contract is stated for both the shape ledger and
the tensor ledger. -/
def LedgerSpec (P : Pruner) : Prop :=
  ∀ g s ps rs og,
    (∀ pr ∈ (P.prune g s ps rs og).shapeBackup, pr.2 = g pr.1) ∧
    (∀ p, (P.prune g s ps rs og).graph p ≠ g p →
        p ∈ (P.prune g s ps rs og).shapeBackup.map Prod.fst) ∧
    (∀ pr ∈ (P.prune g s ps rs og).tensorBackup, pr.2 = s pr.1) ∧
    (∀ p, (P.prune g s ps rs og).scope p ≠ s p →
        p ∈ (P.prune g s ps rs og).tensorBackup.map Prod.fst)

/-- Shrink the leading dimension of a shape by a ratio, keeping the rest. -/
def shrinkShape (r : ℚ) (sh : Shape) : Shape :=
  match sh with
  | [] => []
  | d :: tl => (⌊(1 - r) * (d : ℚ)⌋).toNat :: tl

/-- Truncate a tensor to the kept fraction of its entries. -/
def shrinkTensor (r : ℚ) (t : Tensor) : Tensor :=
  t.take (⌊(1 - r) * (t.length : ℚ)⌋).toNat

/-- Apply a keyed update to a finite set of names inside a total map. -/
def applyAt {α : Type} (f : ℚ → α → α) (l : List (PName × ℚ)) (m : PName → α) : PName → α :=
  l.foldl (fun acc pr => fun q => if q = pr.1 then f pr.2 (acc q) else acc q) m

/-- Modelled from the spec: a concrete executable pruner obeying the section
4.5 / section 6 transform contract (prunes exactly the named parameters,
graph-only mode leaves tensors alone, ledgers record the pre-trial values).
Used to instantiate the abstract theorems on concrete inputs. -/
def modelPruner : Pruner where
  prune g s ps rs og :=
    { graph := applyAt shrinkShape (ps.zip rs) g
      scope := if og then s else applyAt shrinkTensor (ps.zip rs) s
      shapeBackup := ps.map (fun p => (p, g p))
      tensorBackup := if og then [] else ps.map (fun p => (p, s p)) }

/-- Strategy state: the fields of the AutoPruneStrategy object that the
covered methods read or write.  The controller collaborator is external; its
next_tokens() answer and its _best_tokens attribute are modelled as the two
final fields. -/
structure StState where
  startEpoch : ℤ
  endEpoch : ℤ
  retrainEpoch : ℤ
  minRatio : ℚ
  maxRatio : ℚ
  prunedParamNames : List PName
  currentTokens : List ℤ
  rangeTable : List ℤ
  paramBackup : List (PName × Tensor)
  paramShapeBackup : List (PName × Shape)
  nextTokens : List ℤ
  bestTokens : List ℤ

/-- SearchContext: epoch id, the two graphs, the scope, the skip flag, and
the latest value of the configured metric (eval_results[metric_name][-1]). -/
structure Ctx where
  epochId : ℤ
  evalGraph : Graph
  optGraph : Graph
  scope : Scope
  skipTraining : Bool
  evalResult : ℚ

/-- Embedding of AutoPruneStrategy.__init__: the source stores literal 0 into
self._retrain_epoch, ignoring the retrain_epoch argument. -/
def autoPruneInit (startEpoch endEpoch : ℤ) (minRatio maxRatio : ℚ)
    (retrainEpoch : ℤ) : StState :=
  { startEpoch := startEpoch
    endEpoch := endEpoch
    retrainEpoch := 0  -- source: self._retrain_epoch = 0 (argument ignored)
    minRatio := minRatio
    maxRatio := maxRatio
    prunedParamNames := []
    currentTokens := []
    rangeTable := []
    paramBackup := []
    paramShapeBackup := []
    nextTokens := []
    bestTokens := [] }

/-- Guard of on_epoch_begin: epoch_id >= start_epoch and epoch_id <= end_epoch
and (retrain_epoch == 0 or (epoch_id - start_epoch) % retrain_epoch == 0). -/
abbrev guardBegin (st : StState) (ctx : Ctx) : Prop :=
  st.startEpoch ≤ ctx.epochId ∧ ctx.epochId ≤ st.endEpoch ∧
    (st.retrainEpoch = 0 ∨ (ctx.epochId - st.startEpoch) % st.retrainEpoch = 0)

/-- Guard of the search branch of on_epoch_end: same window but strictly
before end_epoch. -/
abbrev guardEndSearch (st : StState) (ctx : Ctx) : Prop :=
  st.startEpoch ≤ ctx.epochId ∧ ctx.epochId < st.endEpoch ∧
    (st.retrainEpoch = 0 ∨ (ctx.epochId - st.startEpoch) % st.retrainEpoch = 0)

/-- Modelled from the spec: _prune_graph (parent class, not under src/)
propagates the shape changes of the optimization graph onto the evaluation
graph — a structural mirror, no tensor copy (spec section 4.4 step 4). -/
def pruneGraphMirror (_evalG optG : Graph) : Graph := optG

/-- Modelled from the spec: _get_prune_ratios (parent class, not under src/)
turns the controller's best-known token vector into the pair of the resolved
parameter list and its decoded ratio vector (spec final-commit steps 2-3). -/
def getPruneRatios (st : StState) (tokens : List ℤ) : List PName × List ℚ :=
  (st.prunedParamNames, tokensToRatios tokens)

/-- Embedding of on_epoch_begin: under the guard, fetch the controller's next
tokens, decode them, prune the optimization graph (full mode, filling both
ledgers), mirror the shapes onto the evaluation graph and set skip_training
to (retrain_epoch == 0).  update_groups_of_conv and compile are external
bookkeeping on the collaborators with no state in this model. -/
def onEpochBegin (P : Pruner) (ctx : Ctx) (st : StState) : Ctx × StState :=
  if guardBegin st ctx then
    ({ ctx with
        optGraph := (P.prune ctx.optGraph ctx.scope st.prunedParamNames
          (tokensToRatios st.nextTokens) false).graph
        scope := (P.prune ctx.optGraph ctx.scope st.prunedParamNames
          (tokensToRatios st.nextTokens) false).scope
        evalGraph := pruneGraphMirror ctx.evalGraph
          (P.prune ctx.optGraph ctx.scope st.prunedParamNames
            (tokensToRatios st.nextTokens) false).graph
        skipTraining := decide (st.retrainEpoch = 0) },
     { st with
        currentTokens := st.nextTokens
        paramBackup := (P.prune ctx.optGraph ctx.scope st.prunedParamNames
          (tokensToRatios st.nextTokens) false).tensorBackup
        paramShapeBackup := (P.prune ctx.optGraph ctx.scope st.prunedParamNames
          (tokensToRatios st.nextTokens) false).shapeBackup })
  else (ctx, st)

/-- Embedding of on_epoch_end.  The returned list records the
controller.update(tokens, reward) calls performed.  In the final-commit
branch the source restore loop reads self.param_backup (underscore missing):
that attribute does not exist, so a nonempty _param_backup makes the first
iteration raise AttributeError, modelled as Except.error; with an empty
_param_backup the loop body never runs.  Neither ledger is cleared in that
branch. -/
def onEpochEnd (P : Pruner) (ctx : Ctx) (st : StState) :
    Except String (Ctx × StState × List (List ℤ × ℚ)) :=
  if guardEndSearch st ctx then
    Except.ok
      ({ ctx with
          scope := restoreMap ctx.scope st.paramBackup
          optGraph := restoreMap ctx.optGraph st.paramShapeBackup
          evalGraph := pruneGraphMirror ctx.evalGraph
            (restoreMap ctx.optGraph st.paramShapeBackup) },
       { st with paramBackup := [], paramShapeBackup := [] },
       [(st.currentTokens, ctx.evalResult)])
  else if ctx.epochId = st.endEpoch then
    if st.paramBackup = [] then
      Except.ok
        ({ ctx with
            optGraph := (P.prune (restoreMap ctx.optGraph st.paramShapeBackup)
              ctx.scope (getPruneRatios st st.bestTokens).1
              (getPruneRatios st st.bestTokens).2 false).graph
            scope := (P.prune (restoreMap ctx.optGraph st.paramShapeBackup)
              ctx.scope (getPruneRatios st st.bestTokens).1
              (getPruneRatios st st.bestTokens).2 false).scope
            evalGraph := pruneGraphMirror
              (restoreMap ctx.evalGraph st.paramShapeBackup)
              (P.prune (restoreMap ctx.optGraph st.paramShapeBackup)
                ctx.scope (getPruneRatios st st.bestTokens).1
                (getPruneRatios st st.bestTokens).2 false).graph
            skipTraining := false },
         st, [])
    else
      Except.error "AttributeError: AutoPruneStrategy object has no attribute param_backup"
  else
    Except.ok (ctx, st, [])

/-- Embedding of _constrain_func: decode the tokens, graph-only prune the
evaluation graph, measure FLOPs, restore every backed-up shape, and report
whether the measured reduction lies inside [min_ratio, max_ratio].  The
second component is the evaluation graph the context holds afterwards. -/
def constrainFunc (P : Pruner) (flops : Graph → ℕ) (st : StState) (ctx : Ctx)
    (tokens : List ℤ) : Bool × Graph :=
  (decide (st.minRatio ≤ 1 - (flops (P.prune ctx.evalGraph ctx.scope
        st.prunedParamNames (tokensToRatios tokens) true).graph : ℚ) /
        (flops ctx.evalGraph : ℚ) ∧
      1 - (flops (P.prune ctx.evalGraph ctx.scope st.prunedParamNames
        (tokensToRatios tokens) true).graph : ℚ) /
        (flops ctx.evalGraph : ℚ) ≤ st.maxRatio),
   restoreMap (P.prune ctx.evalGraph ctx.scope st.prunedParamNames
      (tokensToRatios tokens) true).graph
     (P.prune ctx.evalGraph ctx.scope st.prunedParamNames
      (tokensToRatios tokens) true).shapeBackup)

/-- Midpoint ratio tried in one iteration of _get_uniform_ratios. -/
def midRatio (mn mx : ℚ) : ℚ := (mx + mn) / 2

/-- One graph-only trial prune with a uniform ratio over the selected list. -/
def trialPrune (P : Pruner) (s : Scope) (names : List PName) (g : Graph)
    (r : ℚ) : PruneResult :=
  P.prune g s names (List.replicate names.length r) true

/-- FLOPs reduction measured after a trial prune, against baseline oriF. -/
def measuredDrop (flops : Graph → ℕ) (oriF : ℕ) (R : PruneResult) : ℚ :=
  1 - (flops R.graph : ℚ) / (oriF : ℚ)

/-- Graph left behind after the per-iteration shape restore loop. -/
def restoredAfter (R : PruneResult) : Graph := restoreMap R.graph R.shapeBackup

/-- FLOPs-reduction-versus-uniform-ratio curve of a graph: what one iteration
of the binary search measures when it starts from graph g. -/
def pfCurve (P : Pruner) (flops : Graph → ℕ) (g : Graph) (s : Scope)
    (names : List PName) (r : ℚ) : ℚ :=
  measuredDrop flops (flops g) (trialPrune P s names g r)

/-- Embedding of the while loop of _get_uniform_ratios, with a fuel argument
because the source loop carries no iteration bound: none means the loop has
not returned within fuel iterations.  The source initializes ratios = None
before the loop, threaded here as last; the loop-condition exit (min >= max)
returns it together with the current graph.  The source also computes a
pruned_size from numel_params, dead code that never influences control flow,
so only its baseline is kept as an (unused) argument. -/
def uniformLoop (P : Pruner) (flops numel : Graph → ℕ) (s : Scope)
    (names : List PName) (target : ℚ) (oriF oriN : ℕ) :
    ℕ → Graph → ℚ → ℚ → Option (List ℚ) → Option (Option (List ℚ) × Graph)
  | 0, _g, _mn, _mx, _last => none
  | fuel + 1, g, mn, mx, last =>
    if mn < mx then
      if |measuredDrop flops oriF (trialPrune P s names g (midRatio mn mx)) - target| < 1 / 100 then
        some (some (List.replicate names.length (midRatio mn mx)),
          restoredAfter (trialPrune P s names g (midRatio mn mx)))
      else if measuredDrop flops oriF (trialPrune P s names g (midRatio mn mx)) > target then
        uniformLoop P flops numel s names target oriF oriN fuel
          (restoredAfter (trialPrune P s names g (midRatio mn mx)))
          mn (midRatio mn mx)
          (some (List.replicate names.length (midRatio mn mx)))
      else
        uniformLoop P flops numel s names target oriF oriN fuel
          (restoredAfter (trialPrune P s names g (midRatio mn mx)))
          (midRatio mn mx) mx
          (some (List.replicate names.length (midRatio mn mx)))
    else some (last, g)

/-- Search target of _get_uniform_ratios: (min_ratio + max_ratio) / 2. -/
def targetOf (st : StState) : ℚ := (st.minRatio + st.maxRatio) / 2

/-- Embedding of _get_uniform_ratios: binary search on [0, 1] for a uniform
ratio whose measured FLOPs reduction is within 0.01 of the target. -/
def getUniformRatios (P : Pruner) (flops numel : Graph → ℕ) (ctx : Ctx)
    (st : StState) (fuel : ℕ) : Option (Option (List ℚ) × Graph) :=
  uniformLoop P flops numel ctx.scope st.prunedParamNames (targetOf st)
    (flops ctx.evalGraph) (numel ctx.evalGraph) fuel ctx.evalGraph 0 1 none

/-- The parameter-selection loop of on_compression_begin: append every
matching parameter name to self._pruned_param_names (never cleared first).
The regular-expression engine is external; the compiled pattern is the
matchesF predicate. -/
def selectStep (matchesF : PName → Bool) (allParams : List PName)
    (st : StState) : StState :=
  { st with prunedParamNames := st.prunedParamNames ++ allParams.filter matchesF }

/-- Embedding of on_compression_begin: run the selection loop, then the
uniform-ratio initializer; its ratios become the initial tokens and (as a
deep copy) the range table.  The controller.reset call is an external side
effect on the collaborator.  none propagates a non-terminating initializer
(and the ratios = None crash path, unreachable from the 0 < 1 start). -/
def onCompressionBegin (P : Pruner) (flops numel : Graph → ℕ)
    (matchesF : PName → Bool) (allParams : List PName) (ctx : Ctx)
    (st : StState) (fuel : ℕ) : Option (StState × Ctx) :=
  match getUniformRatios P flops numel ctx (selectStep matchesF allParams st) fuel with
  | none => none
  | some (none, _) => none
  | some (some ratios, g2) =>
      some ({ selectStep matchesF allParams st with
                currentTokens := ratiosToTokens ratios
                rangeTable := ratiosToTokens ratios },
            { ctx with evalGraph := g2 })

/-- Controller.update calls performed by an on_epoch_end outcome. -/
def updatesOf (r : Except String (Ctx × StState × List (List ℤ × ℚ))) :
    List (List ℤ × ℚ) :=
  match r with
  | Except.ok (_, _, u) => u
  | Except.error _ => []

/-- Shape ledger left in the strategy by an on_epoch_end outcome. -/
def ledgerAfter (r : Except String (Ctx × StState × List (List ℤ × ℚ))) :
    List (PName × Shape) :=
  match r with
  | Except.ok (_, s, _) => s.paramShapeBackup
  | Except.error _ => []

/-- Concrete evaluation graph: one parameter of shape [100]. -/
def g1 : Graph := fun _ => [100]

/-- Concrete graph for the final-commit scenario: shape [4, 3]. -/
def gA : Graph := fun _ => [4, 3]

/-- Concrete scope holding a single small tensor everywhere. -/
def s1 : Scope := fun _ => [7]

/-- Concrete FLOPs measure: leading dimension of the conv parameter. -/
def flops1 : Graph → ℕ := fun g => (g "conv1_weights").headD 0

/-- Concrete parameter-count measure. -/
def numel1 : Graph → ℕ := fun g => (g "conv1_weights").foldl (· * ·) 1

/-- Degenerate FLOPs measure that never changes: exhibits a curve on which no
ratio ever meets the tolerance. -/
def flopsConst : Graph → ℕ := fun _ => 8

/-- Concrete stand-in for the compiled selector pattern conv.*_weights. -/
def matchesConv : PName → Bool := fun n => n = "conv1_weights"

/-- Concrete strategy state mid-search. -/
def st1 : StState :=
  { startEpoch := 0
    endEpoch := 10
    retrainEpoch := 0
    minRatio := 1 / 2
    maxRatio := 7 / 10
    prunedParamNames := ["conv1_weights"]
    currentTokens := [30]
    rangeTable := [30]
    paramBackup := []
    paramShapeBackup := []
    nextTokens := [30]
    bestTokens := [20] }

/-- Concrete context at epoch 0. -/
def ctx1 : Ctx :=
  { epochId := 0
    evalGraph := g1
    optGraph := g1
    scope := s1
    skipTraining := false
    evalResult := 9 / 10 }

/-- Concrete context at the final epoch of st1. -/
def ctx10 : Ctx := { ctx1 with epochId := 10 }

/-- Freshly constructed strategy (retrain_epoch argument 3, stored as 0). -/
def stInit : StState := autoPruneInit 0 10 (1 / 2) (7 / 10) 3

/-- Strategy state at the final epoch with a still-open trial: both ledgers
are nonempty. -/
def stA : StState :=
  { st1 with
      endEpoch := 3
      paramBackup := [("conv1_weights", [7])]
      paramShapeBackup := [("conv1_weights", [4, 3])] }

/-- Context matching stA at its final epoch. -/
def ctxA : Ctx :=
  { epochId := 3
    evalGraph := gA
    optGraph := gA
    scope := s1
    skipTraining := true
    evalResult := 9 / 10 }

/-- Final-epoch state whose tensor ledger happens to be empty while the shape
ledger is not. -/
def stB : StState := { stA with paramBackup := [] }

/-- Closed form of the concrete FLOPs-reduction curve of g1 under flops1. -/
def pf1val (r : ℚ) : ℚ :=
  1 - ((⌊(1 - r) * ((100 : ℕ) : ℚ)⌋).toNat : ℚ) / ((100 : ℕ) : ℚ)

/-- Points outside the update list of applyAt are untouched. -/
lemma applyAt_notMem {α : Type} (f : ℚ → α → α) :
    ∀ (l : List (PName × ℚ)) (m : PName → α) (p : PName),
      p ∉ l.map Prod.fst → applyAt f l m p = m p := by
  intro l
  induction l with
  | nil => intro m p _; rfl
  | cons a tl ih =>
      intro m p hp
      simp only [List.map_cons, List.mem_cons, not_or] at hp
      have h1 : applyAt f (a :: tl) m p =
          applyAt f tl (fun q => if q = a.1 then f a.2 (m q) else m q) p := rfl
      rw [h1, ih _ p hp.2]
      simp [hp.1]

/-- The concrete model pruner honours the ledger contract. -/
lemma modelPruner_ledger : LedgerSpec modelPruner := by
  intro g s ps rs og
  refine ⟨?_, ?_, ?_, ?_⟩
  · intro pr hpr
    simp only [modelPruner, List.mem_map] at hpr
    obtain ⟨p, _hp, rfl⟩ := hpr
    rfl
  · intro p hne
    have hk : p ∈ (ps.zip rs).map Prod.fst := by
      by_contra hk
      exact hne (applyAt_notMem _ _ _ _ hk)
    have hps : p ∈ ps := by
      simp only [List.mem_map] at hk
      obtain ⟨⟨x, y⟩, hxy, rfl⟩ := hk
      exact (List.of_mem_zip hxy).1
    show p ∈ (ps.map (fun q => (q, g q))).map Prod.fst
    simp only [List.map_map]
    simpa using hps
  · intro pr hpr
    cases og with
    | true => simp [modelPruner] at hpr
    | false =>
        simp only [modelPruner, Bool.false_eq_true, if_false, List.mem_map] at hpr
        obtain ⟨p, _hp, rfl⟩ := hpr
        rfl
  · intro p hne
    cases og with
    | true => exact absurd rfl hne
    | false =>
        have hk : p ∈ (ps.zip rs).map Prod.fst := by
          by_contra hk
          exact hne (applyAt_notMem _ _ _ _ hk)
        have hps : p ∈ ps := by
          simp only [List.mem_map] at hk
          obtain ⟨⟨x, y⟩, hxy, rfl⟩ := hk
          exact (List.of_mem_zip hxy).1
        show p ∈ (if false then ([] : List (PName × Tensor))
            else ps.map (fun q => (q, s q))).map Prod.fst
        simp only [Bool.false_eq_true, if_false, List.map_map]
        simpa using hps

/-- Folding an exhaustive ledger of original values over the mutated map
recovers the original map. -/
lemma restoreMap_eq {α : Type} (orig : PName → α) :
    ∀ (bk : List (PName × α)) (cur : PName → α),
      (∀ pr ∈ bk, pr.2 = orig pr.1) →
      (∀ p, cur p ≠ orig p → p ∈ bk.map Prod.fst) →
      restoreMap cur bk = orig := by
  intro bk
  induction bk with
  | nil =>
      intro cur _ hexh
      funext p
      by_contra hne
      have := hexh p hne
      simp at this
  | cons a tl ih =>
      intro cur hrec hexh
      have hstep : restoreMap cur (a :: tl) =
          restoreMap (fun q => if q = a.1 then a.2 else cur q) tl := rfl
      rw [hstep]
      apply ih
      · intro pr hpr
        exact hrec pr (List.mem_cons_of_mem a hpr)
      · intro p hp
        by_cases hq : p = a.1
        · exfalso
          apply hp
          have ha : a.2 = orig a.1 := hrec a (List.mem_cons_self a tl)
          simp [hq, ha]
        · have hc : cur p ≠ orig p := by
            intro hcur
            apply hp
            simp [hq, hcur]
          have hm := hexh p hc
          simp only [List.map_cons, List.mem_cons] at hm
          rcases hm with h1 | h2
          · exact absurd h1 hq
          · exact h2

/-- Under the ledger contract, the per-iteration restore of the binary search
recovers the graph it started from. -/
lemma restoredAfter_trial (P : Pruner) (hP : LedgerSpec P) (g : Graph)
    (s : Scope) (names : List PName) (r : ℚ) :
    restoredAfter (trialPrune P s names g r) = g := by
  obtain ⟨hs1, hs2, _, _⟩ := hP g s names (List.replicate names.length r) true
  exact restoreMap_eq g _ _ hs1 hs2

lemma lt_midRatio {mn mx : ℚ} (h : mn < mx) : mn < midRatio mn mx := by
  simp only [midRatio]
  linarith

lemma midRatio_lt {mn mx : ℚ} (h : mn < mx) : midRatio mn mx < mx := by
  simp only [midRatio]
  linarith

/-- Whenever the fueled binary-search loop, started on its baseline graph,
returns a ratio vector, that vector is uniform and its measured reduction is
within the tolerance of the target. -/
lemma uniformLoop_some_tol (P : Pruner) (flops numel : Graph → ℕ) (g0 : Graph)
    (s : Scope) (names : List PName) (target : ℚ) (hP : LedgerSpec P) :
    ∀ (fuel : ℕ) (mn mx : ℚ) (last : Option (List ℚ)) (rs : List ℚ) (gr : Graph),
      mn < mx →
      uniformLoop P flops numel s names target (flops g0) (numel g0) fuel g0 mn mx last
        = some (some rs, gr) →
      ∃ r : ℚ, rs = List.replicate names.length r ∧
        |pfCurve P flops g0 s names r - target| < 1 / 100 := by
  intro fuel
  induction fuel with
  | zero =>
      intro mn mx last rs gr _ h
      simp [uniformLoop] at h
  | succ n ih =>
      intro mn mx last rs gr hlt h
      simp only [uniformLoop] at h
      rw [if_pos hlt] at h
      by_cases hbr : |measuredDrop flops (flops g0)
          (trialPrune P s names g0 (midRatio mn mx)) - target| < 1 / 100
      · rw [if_pos hbr] at h
        simp only [Option.some.injEq, Prod.mk.injEq] at h
        exact ⟨midRatio mn mx, h.1.symm, hbr⟩
      · rw [if_neg hbr, restoredAfter_trial P hP g0 s names (midRatio mn mx)] at h
        by_cases hgt : measuredDrop flops (flops g0)
            (trialPrune P s names g0 (midRatio mn mx)) > target
        · rw [if_pos hgt] at h
          exact ih mn (midRatio mn mx) _ rs gr (lt_midRatio hlt) h
        · rw [if_neg hgt] at h
          exact ih (midRatio mn mx) mx _ rs gr (midRatio_lt hlt) h

/-- When every ratio measures outside the tolerance, the loop never breaks:
no fuel budget makes it return. -/
lemma uniformLoop_stuck (P : Pruner) (flops numel : Graph → ℕ) (g0 : Graph)
    (s : Scope) (names : List PName) (target : ℚ) (hP : LedgerSpec P)
    (hfar : ∀ r : ℚ, 1 / 100 ≤ |pfCurve P flops g0 s names r - target|) :
    ∀ (fuel : ℕ) (mn mx : ℚ) (last : Option (List ℚ)),
      mn < mx →
      uniformLoop P flops numel s names target (flops g0) (numel g0) fuel g0 mn mx last
        = none := by
  intro fuel
  induction fuel with
  | zero => intro mn mx last _; rfl
  | succ n ih =>
      intro mn mx last hlt
      have hfar2 : ¬ |measuredDrop flops (flops g0)
          (trialPrune P s names g0 (midRatio mn mx)) - target| < 1 / 100 :=
        not_lt.mpr (hfar (midRatio mn mx))
      simp only [uniformLoop]
      rw [if_pos hlt, if_neg hfar2,
        restoredAfter_trial P hP g0 s names (midRatio mn mx)]
      by_cases hgt : measuredDrop flops (flops g0)
          (trialPrune P s names g0 (midRatio mn mx)) > target
      · rw [if_pos hgt]
        exact ih mn (midRatio mn mx) _ (lt_midRatio hlt)
      · rw [if_neg hgt]
        exact ih (midRatio mn mx) mx _ (midRatio_lt hlt)

/-- The concrete curve of g1 in closed form. -/
lemma pf1_eval (r : ℚ) :
    pfCurve modelPruner flops1 ctx1.evalGraph ctx1.scope st1.prunedParamNames r
      = pf1val r := rfl

/-- The closed-form concrete curve is monotone in the ratio. -/
lemma pf1val_mono : Monotone pf1val := by
  intro a b hab
  have h1 : (1 - b) * ((100 : ℕ) : ℚ) ≤ (1 - a) * ((100 : ℕ) : ℚ) := by
    nlinarith [show ((100 : ℕ) : ℚ) ≥ 0 by norm_num]
  have h2 := Int.floor_mono h1
  have h3 := Int.toNat_le_toNat h2
  have h4 : ((⌊(1 - b) * ((100 : ℕ) : ℚ)⌋).toNat : ℚ)
      ≤ ((⌊(1 - a) * ((100 : ℕ) : ℚ)⌋).toNat : ℚ) := by exact_mod_cast h3
  have h100 : (0 : ℚ) < ((100 : ℕ) : ℚ) := by norm_num
  have h5 := (div_le_div_iff_of_pos_right h100).mpr h4
  simp only [pf1val]
  linarith

/-- The concrete curve used by the C5 instance is monotone. -/
lemma pf1_mono :
    Monotone (pfCurve modelPruner flops1 ctx1.evalGraph ctx1.scope st1.prunedParamNames) := by
  have h : pfCurve modelPruner flops1 ctx1.evalGraph ctx1.scope st1.prunedParamNames
      = pf1val := funext pf1_eval
  rw [h]
  exact pf1val_mono

/-- With the constant FLOPs measure every ratio measures a reduction of 0,
which is at least 0.01 away from the target of st1. -/
lemma pfConst_far : ∀ r : ℚ,
    1 / 100 ≤ |pfCurve modelPruner flopsConst ctx1.evalGraph ctx1.scope
      st1.prunedParamNames r - targetOf st1| := by
  intro r
  have h0 : pfCurve modelPruner flopsConst ctx1.evalGraph ctx1.scope
      st1.prunedParamNames r = 0 := by
    norm_num [pfCurve, measuredDrop, flopsConst]
  rw [h0, zero_sub, abs_neg,
    abs_of_nonneg (show (0 : ℚ) ≤ targetOf st1 by norm_num [targetOf, st1])]
  norm_num [targetOf, st1]

/-- With an empty selected-parameter list the trial prune changes nothing, so
every ratio measures a reduction of 0, at least 0.01 away from the target of
the freshly constructed strategy. -/
lemma pfEmpty_far : ∀ r : ℚ,
    1 / 100 ≤ |pfCurve modelPruner flops1 ctx1.evalGraph ctx1.scope
      stInit.prunedParamNames r - targetOf stInit| := by
  intro r
  have h0 : pfCurve modelPruner flops1 ctx1.evalGraph ctx1.scope
      stInit.prunedParamNames r = 0 := by
    show measuredDrop flops1 (flops1 g1) (trialPrune modelPruner s1 [] g1 r) = 0
    norm_num [measuredDrop, trialPrune, modelPruner, applyAt, flops1, g1]
  rw [h0, zero_sub, abs_neg,
    abs_of_nonneg (show (0 : ℚ) ≤ targetOf stInit by
      norm_num [targetOf, stInit, autoPruneInit])]
  norm_num [targetOf, stInit, autoPruneInit]

/-- on_epoch_begin never changes the epoch id of the context. -/
lemma onEpochBegin_epochId (P : Pruner) (ctx : Ctx) (st : StState) :
    ((onEpochBegin P ctx st).1).epochId = ctx.epochId := by
  rw [onEpochBegin]
  split <;> rfl

/-- on_epoch_begin never changes the epoch window or retrain interval. -/
lemma onEpochBegin_stFields (P : Pruner) (ctx : Ctx) (st : StState) :
    ((onEpochBegin P ctx st).2).startEpoch = st.startEpoch ∧
    ((onEpochBegin P ctx st).2).endEpoch = st.endEpoch ∧
    ((onEpochBegin P ctx st).2).retrainEpoch = st.retrainEpoch := by
  rw [onEpochBegin]
  split <;> exact ⟨rfl, rfl, rfl⟩

/-- C7: for every ratio r in [0, 1), token_to_ratio (ratio_to_token r) is at
most r and the gap is strictly below 0.01 — the round-trip is a quantization
floor and never a ceiling. -/
theorem c7_codec_roundtrip_floor (r : ℚ) (h0 : 0 ≤ r) (h1 : r < 1) :
    tokenToRatio (ratioToToken r) ≤ r ∧
      r - tokenToRatio (ratioToToken r) < 1 / 100 := by
  have hdiv : r / (1 / 100) = 100 * r := by
    rw [div_div_eq_mul_div]
    ring
  have ht : ratioToToken r = ⌊100 * r⌋ := by
    rw [ratioToToken, if_pos h0, hdiv]
  have hfl : ((⌊100 * r⌋ : ℤ) : ℚ) ≤ 100 * r := Int.floor_le _
  have hfl2 : 100 * r < ⌊100 * r⌋ + 1 := Int.lt_floor_add_one _
  rw [ht, tokenToRatio]
  constructor
  · linarith
  · linarith

/-- C7 witness: the round trip at r = 0.137 lands on 0.13, below r by less
than the quantum. -/
theorem c7_witness :
    tokenToRatio (ratioToToken (137 / 1000)) ≤ 137 / 1000 ∧
      (137 / 1000 : ℚ) - tokenToRatio (ratioToToken (137 / 1000)) < 1 / 100 :=
  c7_codec_roundtrip_floor (137 / 1000) (by norm_num) (by norm_num)

/-- C4: the constructor stores literal 0 into _retrain_epoch whatever value
was passed; hence every triggering on_epoch_begin sets skip_training, and in
general the flag equals the test retrain_epoch == 0. -/
theorem c4_retrain_interval_disabled (startE endE : ℤ) (minR maxR : ℚ)
    (retrainE : ℤ) (P : Pruner) (ctx : Ctx) :
    (autoPruneInit startE endE minR maxR retrainE).retrainEpoch = 0 ∧
    (guardBegin (autoPruneInit startE endE minR maxR retrainE) ctx →
      ((onEpochBegin P ctx (autoPruneInit startE endE minR maxR retrainE)).1).skipTraining
        = true) ∧
    (∀ st : StState, guardBegin st ctx →
      (((onEpochBegin P ctx st).1).skipTraining = true ↔ st.retrainEpoch = 0)) := by
  refine ⟨rfl, ?_, ?_⟩
  · intro hg
    rw [onEpochBegin, if_pos hg]
    simp [autoPruneInit]
  · intro st hg
    rw [onEpochBegin, if_pos hg]
    simp

/-- C4 witness: retrain_epoch argument 5 is stored as 0 and the triggering
epoch-begin at epoch 0 skips training. -/
theorem c4_witness :
    (autoPruneInit 0 10 (1 / 2) (7 / 10) 5).retrainEpoch = 0 ∧
    ((onEpochBegin modelPruner ctx1 (autoPruneInit 0 10 (1 / 2) (7 / 10) 5)).1).skipTraining
      = true := by
  obtain ⟨h1, h2, _⟩ :=
    c4_retrain_interval_disabled 0 10 (1 / 2) (7 / 10) 5 modelPruner ctx1
  exact ⟨h1, h2 (by decide)⟩

/-- C9: on_compression_begin appends matches to the selected-parameter list
without clearing it: a second run duplicates every matched entry. -/
theorem c9_second_selection_duplicates (matchesF : PName → Bool)
    (allParams : List PName) (st : StState) :
    (selectStep matchesF allParams (selectStep matchesF allParams st)).prunedParamNames
      = st.prunedParamNames ++ allParams.filter matchesF ++ allParams.filter matchesF ∧
    ∀ p : PName,
      ((selectStep matchesF allParams (selectStep matchesF allParams st)).prunedParamNames).count p
        = (st.prunedParamNames).count p + 2 * ((allParams.filter matchesF).count p) := by
  constructor
  · simp [selectStep, List.append_assoc]
  · intro p
    simp only [selectStep, List.count_append]
    omega

/-- C2: the constraint evaluator restores the evaluation graph before
returning, for every token vector: the graph — hence its FLOPs under any
measure — is unchanged, and so for any number of repeated calls. -/
theorem c2_constrain_func_no_side_effect (P : Pruner) (flops : Graph → ℕ)
    (st : StState) (ctx : Ctx) (tokens : List ℤ) (hP : LedgerSpec P) :
    (constrainFunc P flops st ctx tokens).2 = ctx.evalGraph ∧
    (∀ f : Graph → ℕ, f (constrainFunc P flops st ctx tokens).2 = f ctx.evalGraph) ∧
    ∀ n : ℕ,
      (fun g => (constrainFunc P flops st { ctx with evalGraph := g } tokens).2)^[n]
        ctx.evalGraph = ctx.evalGraph := by
  have key : ∀ g : Graph,
      (constrainFunc P flops st { ctx with evalGraph := g } tokens).2 = g := by
    intro g
    obtain ⟨hs1, hs2, _, _⟩ :=
      hP g ctx.scope st.prunedParamNames (tokensToRatios tokens) true
    exact restoreMap_eq g _ _ hs1 hs2
  have k1 : (constrainFunc P flops st ctx tokens).2 = ctx.evalGraph := key ctx.evalGraph
  exact ⟨k1, fun f => congrArg f k1, fun n => Function.iterate_fixed (key ctx.evalGraph) n⟩

/-- C2 witness: concrete single call and iterated calls leave the concrete
evaluation graph untouched. -/
theorem c2_witness :
    (constrainFunc modelPruner flops1 st1 ctx1 [30]).2 = ctx1.evalGraph ∧
    (∀ f : Graph → ℕ, f (constrainFunc modelPruner flops1 st1 ctx1 [30]).2 = f ctx1.evalGraph) ∧
    ∀ n : ℕ,
      (fun g => (constrainFunc modelPruner flops1 st1 { ctx1 with evalGraph := g } [30]).2)^[n]
        ctx1.evalGraph = ctx1.evalGraph :=
  c2_constrain_func_no_side_effect modelPruner flops1 st1 ctx1 [30] modelPruner_ledger

/-- C1 (code bug): at the final epoch with a still-open trial, the restore
loop of the commit branch reads the nonexistent attribute param_backup
(underscore missing in the source) and raises AttributeError instead of
restoring; and even on the path whose tensor ledger is empty, the committed
outcome still carries the shape-ledger entries — neither ledger is cleared
in this branch. -/
theorem c1_final_commit_bug :
    onEpochEnd modelPruner ctxA stA =
      Except.error "AttributeError: AutoPruneStrategy object has no attribute param_backup" ∧
    ledgerAfter (onEpochEnd modelPruner ctxA stB) = [("conv1_weights", [4, 3])] := by
  constructor
  · rfl
  · rfl

/-- C10: a trial opened exactly at end_epoch is admitted by the begin guard,
but on_epoch_end cannot take the search branch there, so no
controller.update call is made and the trial reward is discarded; the
final-commit branch runs instead. -/
theorem c10_final_trial_never_reported (P : Pruner) (ctx : Ctx) (st : StState)
    (h1 : st.startEpoch ≤ ctx.epochId) (h2 : ctx.epochId = st.endEpoch)
    (h3 : st.retrainEpoch = 0) :
    guardBegin st ctx ∧
    ¬ guardEndSearch ((onEpochBegin P ctx st).2) ((onEpochBegin P ctx st).1) ∧
    updatesOf (onEpochEnd P (onEpochBegin P ctx st).1 (onEpochBegin P ctx st).2) = [] := by
  obtain ⟨hbs, hbe, _hbr⟩ := onEpochBegin_stFields P ctx st
  have hid := onEpochBegin_epochId P ctx st
  have hg : guardBegin st ctx := ⟨h1, le_of_eq h2, Or.inl h3⟩
  have hnge : ¬ guardEndSearch ((onEpochBegin P ctx st).2) ((onEpochBegin P ctx st).1) := by
    intro hge
    have hlt := hge.2.1
    rw [hid, hbe, h2] at hlt
    exact lt_irrefl _ hlt
  have heq : ((onEpochBegin P ctx st).1).epochId = ((onEpochBegin P ctx st).2).endEpoch := by
    rw [hid, hbe]
    exact h2
  refine ⟨hg, hnge, ?_⟩
  rw [onEpochEnd, if_neg hnge, if_pos heq]
  split <;> rfl

/-- C10 witness: at epoch 10 = end_epoch of st1 the begin guard admits the
trial, the search guard rejects it afterwards, and no update call happens. -/
theorem c10_witness :
    guardBegin st1 ctx10 ∧
    ¬ guardEndSearch ((onEpochBegin modelPruner ctx10 st1).2)
      ((onEpochBegin modelPruner ctx10 st1).1) ∧
    updatesOf (onEpochEnd modelPruner (onEpochBegin modelPruner ctx10 st1).1
      (onEpochBegin modelPruner ctx10 st1).2) = [] :=
  c10_final_trial_never_reported modelPruner ctx10 st1 (by decide) (by decide) rfl

/-- C3: inside the search window strictly before end_epoch, on_epoch_begin
followed by on_epoch_end restores the optimization graph, the scope and the
evaluation graph exactly and clears both ledgers, provided the pruner
records every mutated parameter in the provided backups; FLOPs and
parameter counts under any measure are therefore bit-identical. -/
theorem c3_trial_restore_roundtrip (P : Pruner) (ctx : Ctx) (st : StState)
    (hP : LedgerSpec P) (hconsist : ctx.evalGraph = ctx.optGraph)
    (h1 : st.startEpoch ≤ ctx.epochId) (h2 : ctx.epochId < st.endEpoch)
    (h3 : st.retrainEpoch = 0) :
    ∃ (c2 : Ctx) (s2 : StState) (upd : List (List ℤ × ℚ)),
      onEpochEnd P (onEpochBegin P ctx st).1 (onEpochBegin P ctx st).2
        = Except.ok (c2, s2, upd) ∧
      c2.optGraph = ctx.optGraph ∧ c2.evalGraph = ctx.evalGraph ∧
      c2.scope = ctx.scope ∧ s2.paramBackup = [] ∧ s2.paramShapeBackup = [] ∧
      ∀ flops numel : Graph → ℕ,
        flops c2.optGraph = flops ctx.optGraph ∧
        numel c2.optGraph = numel ctx.optGraph := by
  obtain ⟨hbs, hbe, hbr⟩ := onEpochBegin_stFields P ctx st
  have hid := onEpochBegin_epochId P ctx st
  have hg : guardBegin st ctx := ⟨h1, le_of_lt h2, Or.inl h3⟩
  have hge : guardEndSearch ((onEpochBegin P ctx st).2) ((onEpochBegin P ctx st).1) := by
    refine ⟨?_, ?_, ?_⟩
    · rw [hbs, hid]; exact h1
    · rw [hid, hbe]; exact h2
    · rw [hbr]; exact Or.inl h3
  obtain ⟨hs1, hs2, ht1, ht2⟩ :=
    hP ctx.optGraph ctx.scope st.prunedParamNames (tokensToRatios st.nextTokens) false
  have hopt : restoreMap
      (P.prune ctx.optGraph ctx.scope st.prunedParamNames
        (tokensToRatios st.nextTokens) false).graph
      (P.prune ctx.optGraph ctx.scope st.prunedParamNames
        (tokensToRatios st.nextTokens) false).shapeBackup = ctx.optGraph :=
    restoreMap_eq ctx.optGraph _ _ hs1 hs2
  have hscope : restoreMap
      (P.prune ctx.optGraph ctx.scope st.prunedParamNames
        (tokensToRatios st.nextTokens) false).scope
      (P.prune ctx.optGraph ctx.scope st.prunedParamNames
        (tokensToRatios st.nextTokens) false).tensorBackup = ctx.scope :=
    restoreMap_eq ctx.scope _ _ ht1 ht2
  rw [onEpochEnd, if_pos hge, onEpochBegin, if_pos hg]
  refine ⟨_, _, _, rfl, ?_, ?_, ?_, rfl, rfl, ?_⟩
  · exact hopt
  · exact hopt.trans hconsist.symm
  · exact hscope
  · intro flops numel
    exact ⟨congrArg flops hopt, congrArg numel hopt⟩

/-- C3 witness: the concrete trial at epoch 0 of st1 round-trips the
concrete graph, scope and ledgers. -/
theorem c3_witness :
    ∃ (c2 : Ctx) (s2 : StState) (upd : List (List ℤ × ℚ)),
      onEpochEnd modelPruner (onEpochBegin modelPruner ctx1 st1).1
          (onEpochBegin modelPruner ctx1 st1).2
        = Except.ok (c2, s2, upd) ∧
      c2.optGraph = ctx1.optGraph ∧ c2.evalGraph = ctx1.evalGraph ∧
      c2.scope = ctx1.scope ∧ s2.paramBackup = [] ∧ s2.paramShapeBackup = [] ∧
      ∀ flops numel : Graph → ℕ,
        flops c2.optGraph = flops ctx1.optGraph ∧
        numel c2.optGraph = numel ctx1.optGraph :=
  c3_trial_restore_roundtrip modelPruner ctx1 st1 modelPruner_ledger rfl
    (by decide) (by decide) rfl

/-- C5: whenever the binary search of _get_uniform_ratios returns a ratio
vector (stated, as the claim does, for a monotone reduction curve), that
vector is one ratio repeated over every selected parameter, and its measured
FLOPs reduction is within 0.01 of (min_ratio + max_ratio) / 2. -/
theorem c5_uniform_search_within_tolerance (P : Pruner) (flops numel : Graph → ℕ)
    (ctx : Ctx) (st : StState) (fuel : ℕ) (rs : List ℚ) (hP : LedgerSpec P)
    (_hmono : Monotone (pfCurve P flops ctx.evalGraph ctx.scope st.prunedParamNames))
    (hres : (getUniformRatios P flops numel ctx st fuel).map Prod.fst = some (some rs)) :
    ∃ r : ℚ, rs = List.replicate st.prunedParamNames.length r ∧
      |pfCurve P flops ctx.evalGraph ctx.scope st.prunedParamNames r - targetOf st|
        < 1 / 100 := by
  rw [getUniformRatios] at hres
  rcases Option.map_eq_some'.mp hres with ⟨⟨ors, gr⟩, hu, hfst⟩
  dsimp at hfst
  subst hfst
  exact uniformLoop_some_tol P flops numel ctx.evalGraph ctx.scope
    st.prunedParamNames (targetOf st) hP fuel 0 1 none rs gr (by norm_num) hu

/-- C5 witness: on the concrete monotone curve of g1 the search returns the
uniform ratio 19/32 within 8 iterations, and it meets the tolerance. -/
theorem c5_witness :
    ∃ r : ℚ, [(19 : ℚ) / 32] = List.replicate st1.prunedParamNames.length r ∧
      |pfCurve modelPruner flops1 ctx1.evalGraph ctx1.scope st1.prunedParamNames r
        - targetOf st1| < 1 / 100 :=
  c5_uniform_search_within_tolerance modelPruner flops1 numel1 ctx1 st1 8
    [19 / 32] modelPruner_ledger pf1_mono (by with_unfolding_all rfl)

/-- C6 counterexample: on a curve whose measured reduction never enters the
tolerance band, _get_uniform_ratios returns for no iteration budget at all —
there is no bounded budget and no surfaced failure. -/
theorem c6_counterexample :
    ¬ ∃ fuel : ℕ, (getUniformRatios modelPruner flopsConst numel1 ctx1 st1 fuel).isSome := by
  rintro ⟨fuel, h⟩
  have hn : getUniformRatios modelPruner flopsConst numel1 ctx1 st1 fuel = none := by
    rw [getUniformRatios]
    exact uniformLoop_stuck modelPruner flopsConst numel1 ctx1.evalGraph ctx1.scope
      st1.prunedParamNames (targetOf st1) modelPruner_ledger pfConst_far fuel 0 1 none
      (by norm_num)
  rw [hn] at h
  simp at h

/-- C6 (amended): the source loop has no iteration cap: when no uniform
ratio measures within tolerance of the target, _get_uniform_ratios never
returns, whatever budget it is given, and surfaces no failure. -/
theorem c6_unsatisfiable_target_never_returns (P : Pruner)
    (flops numel : Graph → ℕ) (ctx : Ctx) (st : StState) (hP : LedgerSpec P)
    (hfar : ∀ r : ℚ, 1 / 100 ≤
      |pfCurve P flops ctx.evalGraph ctx.scope st.prunedParamNames r - targetOf st|) :
    ∀ fuel : ℕ, getUniformRatios P flops numel ctx st fuel = none := by
  intro fuel
  rw [getUniformRatios]
  exact uniformLoop_stuck P flops numel ctx.evalGraph ctx.scope st.prunedParamNames
    (targetOf st) hP hfar fuel 0 1 none (by norm_num)

/-- C6 witness: the constant-FLOPs instance never returns within budget 9. -/
theorem c6_witness :
    getUniformRatios modelPruner flopsConst numel1 ctx1 st1 9 = none :=
  c6_unsatisfiable_target_never_returns modelPruner flopsConst numel1 ctx1 st1
    modelPruner_ledger pfConst_far 9

/-- C8 counterexample: with a selector matching no parameter,
on_compression_begin raises no error — the selection stays empty — and then
never returns for any budget, instead of failing fast. -/
theorem c8_counterexample :
    (selectStep matchesConv ["fc_0.w_0"] stInit).prunedParamNames = [] ∧
    ¬ ∃ fuel : ℕ,
      (onCompressionBegin modelPruner flops1 numel1 matchesConv ["fc_0.w_0"]
        ctx1 stInit fuel).isSome := by
  have hsel : (selectStep matchesConv ["fc_0.w_0"] stInit).prunedParamNames = [] := by
    decide
  refine ⟨hsel, ?_⟩
  rintro ⟨fuel, h⟩
  have hun : getUniformRatios modelPruner flops1 numel1 ctx1
      (selectStep matchesConv ["fc_0.w_0"] stInit) fuel = none := by
    rw [getUniformRatios, hsel]
    exact uniformLoop_stuck modelPruner flops1 numel1 ctx1.evalGraph ctx1.scope
      [] (targetOf (selectStep matchesConv ["fc_0.w_0"] stInit)) modelPruner_ledger
      pfEmpty_far fuel 0 1 none (by norm_num)
  rw [onCompressionBegin, hun] at h
  simp at h

/-- C8 (amended): when no parameter name matches the selector,
on_compression_begin performs no emptiness check: it silently keeps the
selected-parameter list unchanged (an empty search space for a fresh
strategy), and whenever — as the unchanged FLOPs of an empty selection
force — no ratio measures within tolerance, it never returns for any
iteration budget, surfacing no error. -/
theorem c8_no_fail_fast_on_empty_selection (P : Pruner)
    (flops numel : Graph → ℕ) (matchesF : PName → Bool) (allParams : List PName)
    (ctx : Ctx) (st : StState) (hP : LedgerSpec P)
    (hnone : allParams.filter matchesF = [])
    (hfar : ∀ r : ℚ, 1 / 100 ≤
      |pfCurve P flops ctx.evalGraph ctx.scope st.prunedParamNames r - targetOf st|) :
    (selectStep matchesF allParams st).prunedParamNames = st.prunedParamNames ∧
    ∀ fuel : ℕ, onCompressionBegin P flops numel matchesF allParams ctx st fuel = none := by
  have hsel : (selectStep matchesF allParams st).prunedParamNames = st.prunedParamNames := by
    simp [selectStep, hnone]
  refine ⟨hsel, ?_⟩
  intro fuel
  have hun : getUniformRatios P flops numel ctx (selectStep matchesF allParams st) fuel
      = none := by
    rw [getUniformRatios, hsel]
    exact uniformLoop_stuck P flops numel ctx.evalGraph ctx.scope st.prunedParamNames
      (targetOf (selectStep matchesF allParams st)) hP hfar fuel 0 1 none (by norm_num)
  rw [onCompressionBegin, hun]

/-- C8 witness: the concrete no-match instance keeps the empty selection and
returns nothing within budget 9. -/
theorem c8_witness :
    (selectStep matchesConv ["fc_0.w_0"] stInit).prunedParamNames
      = stInit.prunedParamNames ∧
    onCompressionBegin modelPruner flops1 numel1 matchesConv ["fc_0.w_0"]
      ctx1 stInit 9 = none := by
  have h := c8_no_fail_fast_on_empty_selection modelPruner flops1 numel1 matchesConv
    ["fc_0.w_0"] ctx1 stInit modelPruner_ledger (by decide) pfEmpty_far
  exact ⟨h.1, h.2 9⟩

end AutoPruneSlim
